import Mathlib

def leapB (y : Nat) : Bool := (y % 4 == 0 && y % 100 != 0) || y % 400 == 0

def daysInYear (y : Nat) : Nat := if leapB y then 366 else 365

-- days from 0000-01-01 to y-01-01, proleptic Gregorian (ECMA-262 DayFromYear, rebased)
def yearStart0 (y : Nat) : Nat := 365 * y + (y + 3) / 4 - (y + 99) / 100 + (y + 399) / 400

example : yearStart0 1970 = 719528 := by decide
example : yearStart0 0 = 0 := by decide
example : yearStart0 1 = 366 := by decide

theorem bracket4 (y : Nat) : (y + 4) / 4 - (y + 3) / 4 = if y % 4 = 0 then 1 else 0 := by
  split <;> omega

theorem bracket100 (y : Nat) : (y + 100) / 100 - (y + 99) / 100 = if y % 100 = 0 then 1 else 0 := by
  split <;> omega

theorem bracket400 (y : Nat) : (y + 400) / 400 - (y + 399) / 400 = if y % 400 = 0 then 1 else 0 := by
  split <;> omega

theorem sub_ok (y : Nat) : (y + 99) / 100 ≤ 365 * y + (y + 3) / 4 := by omega

theorem yearStart0_succ (y : Nat) : yearStart0 (y + 1) = yearStart0 y + daysInYear y := by
  have b4 := bracket4 y
  have b100 := bracket100 y
  have b400 := bracket400 y
  have s1 := sub_ok y
  have s2 := sub_ok (y + 1)
  unfold yearStart0 daysInYear leapB
  have e4 : y + 1 + 3 = y + 4 := by omega
  have e100 : y + 1 + 99 = y + 100 := by omega
  have e400 : y + 1 + 399 = y + 400 := by omega
  rw [e4, e100, e400]
  simp only [Bool.or_eq_true, Bool.and_eq_true, beq_iff_eq, bne_iff_ne]
  split_ifs at * <;> omega

theorem yearStart0_lb (y : Nat) : 365 * y ≤ yearStart0 y := by
  unfold yearStart0; omega

theorem yearStart0_mono {a b : Nat} (h : a ≤ b) : yearStart0 a ≤ yearStart0 b := by
  induction b with
  | zero => simp_all
  | succ n ih =>
      rcases Nat.lt_or_ge a (n+1) with h' | h'
      · have := ih (by omega)
        have := yearStart0_succ n
        unfold daysInYear at this
        split at this <;> omega
      · have ha : a = n + 1 := by omega
        rw [ha]

/-- Downward search for the greatest year `y ≤ start` with `yearStart0 y ≤ n`
(ECMA-262 YearFromTime: the largest year whose start is at or before the instant).
The fuel bounds the recursion depth; `yearFromDay0` supplies enough fuel. -/
def yearSearch (n : Nat) : Nat → Nat → Nat
  | _, 0 => 0
  | y, f + 1 => if yearStart0 y ≤ n then y else yearSearch n (y - 1) f

def yearFromDay0 (n : Nat) : Nat :=
  yearSearch n (n / 365 + 1) (n / 365 + 2 - 400 * (n / 146097))

example : yearFromDay0 719528 = 1970 := by decide
example : yearFromDay0 719527 = 1969 := by decide
example : yearFromDay0 0 = 0 := by decide
example : yearFromDay0 366 = 1 := by decide

theorem yearSearch_spec (n : Nat) (f : Nat) :
    ∀ y y0, y0 ≤ y → yearStart0 y0 ≤ n → y - y0 < f →
      yearStart0 (yearSearch n y f) ≤ n ∧ yearSearch n y f ≤ y ∧
        (∀ z, yearSearch n y f < z → z ≤ y → ¬ (yearStart0 z ≤ n)) := by
  induction f with
  | zero => intro y y0 h1 h2 h3; exact absurd h3 (Nat.not_lt_zero _)
  | succ f ih =>
      intro y y0 hy0 hP hf
      unfold yearSearch
      split
      · refine ⟨by assumption, le_refl _, ?_⟩
        intro z hz1 hz2
        omega
      · have hylt : y0 < y := by
          rcases Nat.eq_or_lt_of_le hy0 with h | h
          · exact absurd (h ▸ hP) (by assumption)
          · exact h
        obtain ⟨ha, hb, hc⟩ := ih (y - 1) y0 (by omega) hP (by omega)
        refine ⟨ha, by omega, ?_⟩
        intro z h1 h2
        rcases Nat.lt_or_ge z y with h3 | h3
        · exact hc z h1 (by omega)
        · have hz : z = y := by omega
          rw [hz]
          assumption

theorem yearStart0_400mul (k : Nat) : yearStart0 (400 * k) = 146097 * k := by
  unfold yearStart0; omega

theorem yearFromDay0_char (n : Nat) :
    yearStart0 (yearFromDay0 n) ≤ n ∧ yearFromDay0 n ≤ n / 365 + 1 ∧
      (∀ z, yearFromDay0 n < z → z ≤ n / 365 + 1 → ¬ (yearStart0 z ≤ n)) := by
  unfold yearFromDay0
  apply yearSearch_spec n _ _ (400 * (n / 146097))
  · have := yearStart0_400mul (n / 146097)
    have : 146097 * (n / 146097) ≤ n := Nat.mul_div_le n 146097 |>.trans_eq' (by ring)
    omega
  · rw [yearStart0_400mul]
    exact Nat.mul_div_le n 146097 |>.trans_eq' (by ring) |>.trans (le_refl n) |>.trans (le_refl n)
  · omega

theorem yearFromDay0_le (n : Nat) : yearStart0 (yearFromDay0 n) ≤ n :=
  (yearFromDay0_char n).1

theorem lt_yearStart0_succ (n : Nat) : n < yearStart0 (yearFromDay0 n + 1) := by
  by_contra h
  push_neg at h
  have hb : yearFromDay0 n + 1 ≤ n / 365 + 1 := by
    have h365 : 365 * (yearFromDay0 n + 1) ≤ yearStart0 (yearFromDay0 n + 1) := yearStart0_lb _
    omega
  exact (yearFromDay0_char n).2.2 _ (Nat.lt_succ_self _) hb h

theorem yearFromDay0_le_of_lt (n : Nat) (y : Nat) (h : n < yearStart0 (y + 1)) : yearFromDay0 n ≤ y := by
  by_contra hc
  push_neg at hc
  have := yearStart0_mono (show y + 1 ≤ yearFromDay0 n by omega)
  have := yearFromDay0_le n
  omega

theorem yearFromDay0_ge (n y0 : Nat) (h : yearStart0 y0 ≤ n) : y0 ≤ yearFromDay0 n := by
  by_contra hc
  push_neg at hc
  have h2 := lt_yearStart0_succ n
  have h3 := yearStart0_mono (show yearFromDay0 n + 1 ≤ y0 by omega)
  omega

-- ECMA-262 month table; L = 1 in leap years
def monthLengths (L : Nat) : List Nat := [31, 28 + L, 31, 30, 31, 30, 31, 31, 30, 31, 30, 31]

/-- Walk the month table: month containing day-of-year `doy` (ECMA-262
MonthFromTime / DateFromTime, table-driven form). Returns (month, day), 1-based. -/
def monthDayGo : List Nat → Nat → Nat → Nat × Nat
  | [], m, doy => (m, doy + 1)
  | len :: rest, m, doy => if doy < len then (m, doy + 1) else monthDayGo rest (m + 1) (doy - len)

def monthDayOfDoy (L : Nat) (doy : Nat) : Nat × Nat := monthDayGo (monthLengths L) 1 doy

-- days before month m (1-based) in a year with leap flag L
def cumDays (L : Nat) (m : Nat) : Nat := ((monthLengths L).take (m - 1)).sum

example : monthDayOfDoy 0 0 = (1, 1) := by decide
example : monthDayOfDoy 0 364 = (12, 31) := by decide
example : monthDayOfDoy 1 59 = (2, 29) := by decide
example : monthDayOfDoy 1 60 = (3, 1) := by decide
example : cumDays 0 3 = 59 := by decide

theorem monthDayGo_spec : ∀ (lens : List Nat) (m0 doy : Nat), doy < lens.sum →
    (∀ l ∈ lens, l ≤ 31) →
    m0 ≤ (monthDayGo lens m0 doy).1 ∧
    (monthDayGo lens m0 doy).1 < m0 + lens.length ∧
    (lens.take ((monthDayGo lens m0 doy).1 - m0)).sum + ((monthDayGo lens m0 doy).2 - 1) = doy ∧
    1 ≤ (monthDayGo lens m0 doy).2 ∧ (monthDayGo lens m0 doy).2 ≤ 31 := by
  intro lens
  induction lens with
  | nil => intro m0 doy h; simp at h
  | cons len rest ih =>
      intro m0 doy h hlen
      rw [monthDayGo]
      split
      · dsimp only
        rw [Nat.sub_self]
        simp only [List.take_zero, List.sum_nil, List.length_cons, Nat.zero_add]
        have : len ≤ 31 := hlen len (by simp)
        omega
      · have hsum : doy - len < rest.sum := by
          simp [List.sum_cons] at h
          omega
        have hlen' : ∀ l ∈ rest, l ≤ 31 := fun l hl => hlen l (by simp [hl])
        obtain ⟨ha, hb, hc, hd, he⟩ := ih (m0 + 1) (doy - len) hsum hlen'
        have hk : (monthDayGo rest (m0 + 1) (doy - len)).1 - m0 =
            ((monthDayGo rest (m0 + 1) (doy - len)).1 - (m0 + 1)) + 1 := by omega
        refine ⟨by omega, by simp; omega, ?_, hd, he⟩
        rw [hk, List.take_succ_cons, List.sum_cons]
        omega

def day0ToCivil (n : Nat) : Nat × Nat × Nat :=
  let y := yearFromDay0 n
  let md := monthDayOfDoy (if leapB y then 1 else 0) (n - yearStart0 y)
  (y, md.1, md.2)

def civilToDay0 (y m d : Nat) : Nat :=
  yearStart0 y + cumDays (if leapB y then 1 else 0) m + (d - 1)

example : day0ToCivil 719528 = (1970, 1, 1) := by decide
example : civilToDay0 1970 1 1 = 719528 := by decide
example : day0ToCivil (civilToDay0 2024 2 29) = (2024, 2, 29) := by decide
example : day0ToCivil (civilToDay0 2026 1 1) = (2026, 1, 1) := by decide

theorem monthLengths_sum (L : Nat) : (monthLengths L).sum = 365 + L := by
  simp [monthLengths]
  omega

theorem monthLengths_le31 (L : Nat) (hL : L ≤ 1) : ∀ l ∈ monthLengths L, l ≤ 31 := by
  interval_cases L <;> decide

theorem monthLengths_length (L : Nat) : (monthLengths L).length = 12 := by
  simp [monthLengths]

theorem day0ToCivil_spec (n : Nat) :
    civilToDay0 (day0ToCivil n).1 (day0ToCivil n).2.1 (day0ToCivil n).2.2 = n ∧
    1 ≤ (day0ToCivil n).2.1 ∧ (day0ToCivil n).2.1 ≤ 12 ∧ 1 ≤ (day0ToCivil n).2.2 ∧
    (day0ToCivil n).2.2 ≤ 31 ∧ (day0ToCivil n).1 = yearFromDay0 n := by
  have h1 := yearFromDay0_le n
  have h2 := lt_yearStart0_succ n
  rw [yearStart0_succ] at h2
  have hdoy : n - yearStart0 (yearFromDay0 n) <
      (monthLengths (if leapB (yearFromDay0 n) then 1 else 0)).sum := by
    rw [monthLengths_sum]
    unfold daysInYear at h2
    split at h2 <;> split <;> simp_all <;> omega
  have hlen : ∀ l ∈ monthLengths (if leapB (yearFromDay0 n) then 1 else 0), l ≤ 31 :=
    monthLengths_le31 _ (by split <;> omega)
  obtain ⟨ha, hb, hc, hd, he⟩ := monthDayGo_spec _ 1 _ hdoy hlen
  rw [monthLengths_length] at hb
  refine ⟨?_, ha, by exact Nat.lt_succ_iff.mp hb, hd, he, rfl⟩
  show yearStart0 (yearFromDay0 n) +
      cumDays (if leapB (yearFromDay0 n) then 1 else 0)
        (monthDayGo (monthLengths (if leapB (yearFromDay0 n) then 1 else 0)) 1
          (n - yearStart0 (yearFromDay0 n))).1 +
      ((monthDayGo (monthLengths (if leapB (yearFromDay0 n) then 1 else 0)) 1
          (n - yearStart0 (yearFromDay0 n))).2 - 1) = n
  unfold cumDays
  omega

-- ───────────────────────────── string layer ─────────────────────────────

def digitChar (n : Nat) : Char := Char.ofNat (48 + n)

def digitVal (c : Char) : Nat := c.toNat - 48

theorem digitChar_isDigit {n : Nat} (h : n ≤ 9) : (digitChar n).isDigit = true := by
  interval_cases n <;> decide

theorem digitVal_digitChar {n : Nat} (h : n ≤ 9) : digitVal (digitChar n) = n := by
  interval_cases n <;> decide

-- String(n).padStart(2, '0') for n ≤ 99 yields exactly these two digit chars
def pad2 (n : Nat) : List Char := [digitChar (n / 10), digitChar (n % 10)]

-- the four year digits of a canonical `YYYY-…` timestamp string
def pad4 (n : Nat) : List Char :=
  [digitChar (n / 1000), digitChar (n / 100 % 10), digitChar (n / 10 % 10), digitChar (n % 10)]

def fmtCore (y mo d h mi s : Nat) : List Char :=
  pad4 y ++ '-' :: pad2 mo ++ '-' :: pad2 d ++ 'T' :: pad2 h ++ ':' :: pad2 mi ++ ':' :: pad2 s

/-- Decimal rendering of the year by `${y}`: unpadded, unlike the components
that go through `padStart(2, '0')` (line 89 pads only month through second).
Written as an explicit digit-count chain; the last branch fixes six digits,
exact for every year below 1000000 and hence for every instant a JS Date can
represent (years up to 275760). -/
def yearDigits (y : Nat) : List Char :=
  if y < 10 then [digitChar y]
  else if y < 100 then [digitChar (y / 10), digitChar (y % 10)]
  else if y < 1000 then [digitChar (y / 100), digitChar (y / 10 % 10), digitChar (y % 10)]
  else if y < 10000 then pad4 y
  else if y < 100000 then
    [digitChar (y / 10000), digitChar (y / 1000 % 10), digitChar (y / 100 % 10),
      digitChar (y / 10 % 10), digitChar (y % 10)]
  else
    [digitChar (y / 100000 % 10), digitChar (y / 10000 % 10), digitChar (y / 1000 % 10),
      digitChar (y / 100 % 10), digitChar (y / 10 % 10), digitChar (y % 10)]

-- the date-time core as the program prints it (line 88-90): year unpadded
def fmtCoreOut (y mo d h mi s : Nat) : List Char :=
  yearDigits y ++ '-' :: pad2 mo ++ '-' :: pad2 d ++ 'T' :: pad2 h ++ ':' :: pad2 mi ++
    ':' :: pad2 s

theorem yearDigits_eq_pad4 {y : Nat} (h1 : 1000 ≤ y) (h2 : y ≤ 9999) :
    yearDigits y = pad4 y := by
  unfold yearDigits
  rw [if_neg (by omega), if_neg (by omega), if_neg (by omega), if_pos (by omega)]

theorem fmtCoreOut_eq_fmtCore (y mo d h mi s : Nat) (h1 : 1000 ≤ y) (h2 : y ≤ 9999) :
    fmtCoreOut y mo d h mi s = fmtCore y mo d h mi s := by
  unfold fmtCoreOut fmtCore
  rw [yearDigits_eq_pad4 h1 h2]

def fmtOffset (neg : Bool) (oh om : Nat) : List Char :=
  (if neg then '-' else '+') :: pad2 oh ++ ':' :: pad2 om

def fmtTs (y mo d h mi s : Nat) (neg : Bool) (oh om : Nat) : String :=
  ⟨fmtCore y mo d h mi s ++ fmtOffset neg oh om⟩

example : fmtTs 2026 1 1 10 0 0 false 8 0 = "2026-01-01T10:00:00+08:00" := by decide

-- epoch milliseconds of a civil date-time taken as UTC
def epochMsOfCivil (y mo d h mi s : Nat) : Int :=
  ((civilToDay0 y mo d : Int) - 719528) * 86400000 + (h * 3600000 + mi * 60000 + s * 1000)

def offsetMs (neg : Bool) (oh om : Nat) : Int :=
  (if neg then -1 else 1) * ((oh : Int) * 3600000 + (om : Int) * 60000)

def epochMsOf (y mo d h mi s : Nat) (neg : Bool) (oh om : Nat) : Int :=
  epochMsOfCivil y mo d h mi s - offsetMs neg oh om

-- calendar validity as checked by ECMAScript ISO parsing (day must exist in the month)
def validDate (y mo d : Nat) : Bool :=
  decide (1 ≤ mo ∧ mo ≤ 12 ∧ 1 ≤ d ∧ d ≤ 31 ∧ day0ToCivil (civilToDay0 y mo d) = (y, mo, d))

example : validDate 2026 1 1 = true := by decide
example : validDate 2026 2 29 = false := by decide
example : validDate 2024 2 29 = true := by decide
example : validDate 2026 13 1 = false := by decide

/-- Model of `new Date(s)` on the canonical `YYYY-MM-DDTHH:MM:SS±HH:MM` format
(ECMA-262 Date Time String Format, restricted to the full date-time-with-offset
form this system reads and writes; other accepted JS layouts are outside the
modeled domain and map to `none` = Invalid Date). -/
def parseTsChars : List Char → Option Int
  | [y1, y2, y3, y4, a1, b1, b2, a2, c1, c2, a3, e1, e2, a4, f1, f2, a5, g1, g2, sg, p1, p2, a6, q1, q2] =>
    if (a1 = '-' ∧ a2 = '-' ∧ a3 = 'T' ∧ a4 = ':' ∧ a5 = ':' ∧ a6 = ':' ∧ (sg = '+' ∨ sg = '-') ∧
        y1.isDigit = true ∧ y2.isDigit = true ∧ y3.isDigit = true ∧ y4.isDigit = true ∧
        b1.isDigit = true ∧ b2.isDigit = true ∧ c1.isDigit = true ∧ c2.isDigit = true ∧
        e1.isDigit = true ∧ e2.isDigit = true ∧ f1.isDigit = true ∧ f2.isDigit = true ∧
        g1.isDigit = true ∧ g2.isDigit = true ∧ p1.isDigit = true ∧ p2.isDigit = true ∧
        q1.isDigit = true ∧ q2.isDigit = true) then
      let y := digitVal y1 * 1000 + digitVal y2 * 100 + digitVal y3 * 10 + digitVal y4
      let mo := digitVal b1 * 10 + digitVal b2
      let d := digitVal c1 * 10 + digitVal c2
      let h := digitVal e1 * 10 + digitVal e2
      let mi := digitVal f1 * 10 + digitVal f2
      let s := digitVal g1 * 10 + digitVal g2
      let oh := digitVal p1 * 10 + digitVal p2
      let om := digitVal q1 * 10 + digitVal q2
      if validDate y mo d = true ∧ h ≤ 23 ∧ mi ≤ 59 ∧ s ≤ 59 ∧ oh ≤ 23 ∧ om ≤ 59 then
        some (epochMsOfCivil y mo d h mi s -
          (if sg = '-' then (-1 : Int) else 1) * ((oh : Int) * 3600000 + (om : Int) * 60000))
      else none
    else none
  | _ => none

def jsParseDate (s : String) : Option Int := parseTsChars s.data

example : jsParseDate "2026-01-01T10:00:00+08:00" = some 1767232800000 := by decide
example : jsParseDate "not-a-date" = none := by decide
example : jsParseDate "1970-01-01T00:00:00+00:00" = some 0 := by decide
example : jsParseDate "2026-02-29T10:00:00+08:00" = none := by decide

-- model of the trailing-offset regex ([+\x2d]\d{2}:\d{2})$
def offsetSuffixChars (L : List Char) : Option (List Char) :=
  match L.drop (L.length - 6) with
  | [sg, u1, u2, co, v1, v2] =>
      if (sg = '+' ∨ sg = '-') ∧ u1.isDigit = true ∧ u2.isDigit = true ∧ co = ':' ∧
          v1.isDigit = true ∧ v2.isDigit = true then
        some [sg, u1, u2, co, v1, v2]
      else none
  | _ => none

def offsetSuffix (s : String) : Option String := (offsetSuffixChars s.data).map (⟨·⟩)

example : offsetSuffix "2026-01-01T10:00:00+08:00" = some "+08:00" := by decide
example : offsetSuffix "abc" = none := by decide

def sgnVal (c : Char) : Int := if c = '+' then 1 else -1

-- (parseInt(tz.slice(1,3)) * 60 + parseInt(tz.slice(4,6))) * 60000 * sign
def offMsOfTz (tz : String) : Int :=
  match tz.data with
  | [sg, u1, u2, _, v1, v2] =>
      (((digitVal u1 * 10 + digitVal u2) * 60 + (digitVal v1 * 10 + digitVal v2) : Nat) : Int)
        * 60000 * sgnVal sg
  | _ => 0

example : offMsOfTz "+08:00" = 28800000 := by decide
example : offMsOfTz "-05:30" = -19800000 := by decide

-- getUTC* component formatting of the shifted instant (taskScheduler.js lines
-- 86-90); the year is printed unpadded, so years below 1000 yield fewer than
-- four digits
def formatUTCCore (t : Int) : List Char :=
  let days := t.ediv 86400000
  let msd := (t.emod 86400000).toNat
  let n := (days + 719528).toNat
  let c := day0ToCivil n
  fmtCoreOut c.1 c.2.1 c.2.2 (msd / 3600000) (msd / 60000 % 60) (msd / 1000 % 60)

/-- Recurrence renewal (taskScheduler.js lines 77-92): parse the previous
timestamp, advance by `intervalSec` seconds, format the result in the original
UTC offset, preserving the matched offset token verbatim (default `+08:00`).
An unparseable previous timestamp yields the literal JS `NaN` rendering. -/
def renewNextIso (prev : String) (intervalSec : Int) : String :=
  let tz := (offsetSuffix prev).getD "+08:00"
  match jsParseDate prev with
  | some prevMs => ⟨formatUTCCore (prevMs + intervalSec * 1000 + offMsOfTz tz) ++ tz.data⟩
  | none => ⟨"NaN-NaN-NaNTNaN:NaN:NaN".data ++ tz.data⟩

example : renewNextIso "2026-01-01T10:00:00+08:00" 60 = "2026-01-01T10:01:00+08:00" := by decide
example : renewNextIso "2026-12-31T23:59:30+08:00" 60 = "2027-01-01T00:00:30+08:00" := by decide
example : renewNextIso "garbage" 60 = "NaN-NaN-NaNTNaN:NaN:NaN+08:00" := by decide

-- parse inverts format on canonical component ranges
theorem jsParseDate_fmtTs (y mo d h mi s : Nat) (neg : Bool) (oh om : Nat)
    (hy : y ≤ 9999) (hv : validDate y mo d = true)
    (hh : h ≤ 23) (hmi : mi ≤ 59) (hs : s ≤ 59) (hoh : oh ≤ 23) (hom : om ≤ 59) :
    jsParseDate (fmtTs y mo d h mi s neg oh om) = some (epochMsOf y mo d h mi s neg oh om) := by
  obtain ⟨h1mo, h12mo, h1d, h31d, hrt⟩ := of_decide_eq_true hv
  have hyv : digitVal (digitChar (y / 1000)) * 1000 + digitVal (digitChar (y / 100 % 10)) * 100 +
      digitVal (digitChar (y / 10 % 10)) * 10 + digitVal (digitChar (y % 10)) = y := by
    rw [digitVal_digitChar (by omega), digitVal_digitChar (by omega),
      digitVal_digitChar (by omega), digitVal_digitChar (by omega)]
    omega
  have hmov : digitVal (digitChar (mo / 10)) * 10 + digitVal (digitChar (mo % 10)) = mo := by
    rw [digitVal_digitChar (by omega), digitVal_digitChar (by omega)]; omega
  have hdv : digitVal (digitChar (d / 10)) * 10 + digitVal (digitChar (d % 10)) = d := by
    rw [digitVal_digitChar (by omega), digitVal_digitChar (by omega)]; omega
  have hhv : digitVal (digitChar (h / 10)) * 10 + digitVal (digitChar (h % 10)) = h := by
    rw [digitVal_digitChar (by omega), digitVal_digitChar (by omega)]; omega
  have hmiv : digitVal (digitChar (mi / 10)) * 10 + digitVal (digitChar (mi % 10)) = mi := by
    rw [digitVal_digitChar (by omega), digitVal_digitChar (by omega)]; omega
  have hsv : digitVal (digitChar (s / 10)) * 10 + digitVal (digitChar (s % 10)) = s := by
    rw [digitVal_digitChar (by omega), digitVal_digitChar (by omega)]; omega
  have hohv : digitVal (digitChar (oh / 10)) * 10 + digitVal (digitChar (oh % 10)) = oh := by
    rw [digitVal_digitChar (by omega), digitVal_digitChar (by omega)]; omega
  have homv : digitVal (digitChar (om / 10)) * 10 + digitVal (digitChar (om % 10)) = om := by
    rw [digitVal_digitChar (by omega), digitVal_digitChar (by omega)]; omega
  unfold jsParseDate fmtTs fmtCore fmtOffset pad4 pad2
  simp only [List.cons_append, List.nil_append]
  cases neg with
  | false =>
      rw [parseTsChars]
      rw [if_pos (by
        refine ⟨rfl, rfl, rfl, rfl, rfl, rfl, Or.inl rfl, ?_, ?_, ?_, ?_, ?_, ?_, ?_, ?_, ?_,
          ?_, ?_, ?_, ?_, ?_, ?_, ?_, ?_, ?_⟩ <;> exact digitChar_isDigit (by omega))]
      simp only [hyv, hmov, hdv, hhv, hmiv, hsv, hohv, homv]
      rw [if_pos ⟨hv, hh, hmi, hs, hoh, hom⟩]
      unfold epochMsOf offsetMs
      norm_num [show ((('+') : Char) = '-') = False by decide]
  | true =>
      rw [parseTsChars]
      rw [if_pos (by
        refine ⟨rfl, rfl, rfl, rfl, rfl, rfl, Or.inr rfl, ?_, ?_, ?_, ?_, ?_, ?_, ?_, ?_, ?_,
          ?_, ?_, ?_, ?_, ?_, ?_, ?_, ?_, ?_⟩ <;> exact digitChar_isDigit (by omega))]
      simp only [hyv, hmov, hdv, hhv, hmiv, hsv, hohv, homv]
      rw [if_pos ⟨hv, hh, hmi, hs, hoh, hom⟩]
      unfold epochMsOf offsetMs
      norm_num [show ((('-') : Char) = '-') = True by decide]

-- the trailing-offset regex recovers exactly the offset token of a formatted timestamp
theorem offsetSuffix_fmtTs (y mo d h mi s : Nat) (neg : Bool) (oh om : Nat)
    (hoh : oh ≤ 23) (hom : om ≤ 59) :
    offsetSuffix (fmtTs y mo d h mi s neg oh om) = some ⟨fmtOffset neg oh om⟩ := by
  unfold offsetSuffix fmtTs offsetSuffixChars
  have hlen : (fmtCore y mo d h mi s ++ fmtOffset neg oh om).length = 25 := by
    simp [fmtCore, fmtOffset, pad4, pad2]
  rw [hlen]
  have h19 : (25 : Nat) - 6 = (fmtCore y mo d h mi s).length := by
    simp [fmtCore, pad4, pad2]
  rw [h19, List.drop_left]
  unfold fmtOffset pad2
  simp only [List.cons_append, List.nil_append]
  cases neg with
  | false =>
      rw [if_pos (by
        refine ⟨Or.inl rfl, ?_, ?_, trivial, ?_, ?_⟩ <;> exact digitChar_isDigit (by omega))]
      rfl
  | true =>
      rw [if_pos (by
        refine ⟨Or.inr rfl, ?_, ?_, trivial, ?_, ?_⟩ <;> exact digitChar_isDigit (by omega))]
      rfl

theorem offMsOfTz_fmtOffset (neg : Bool) (oh om : Nat) (hoh : oh ≤ 23) (hom : om ≤ 59) :
    offMsOfTz ⟨fmtOffset neg oh om⟩ = offsetMs neg oh om := by
  unfold offMsOfTz fmtOffset pad2 offsetMs sgnVal
  simp only [List.cons_append, List.nil_append]
  rw [digitVal_digitChar (by omega), digitVal_digitChar (by omega),
    digitVal_digitChar (by omega), digitVal_digitChar (by omega)]
  cases neg with
  | false =>
      rw [show (if (if (false = true) then ('-' : Char) else '+') = '+' then (1 : Int) else -1) = 1
        from by decide]
      rw [show (if (false = true) then (-1 : Int) else 1) = 1 from by decide]
      push_cast
      omega
  | true =>
      rw [show (if (if (true = true) then ('-' : Char) else '+') = '+' then (1 : Int) else -1) = -1
        from by decide]
      rw [show (if (true = true) then (-1 : Int) else 1) = -1 from by decide]
      push_cast
      omega

/-- C2 (amended): recurrence renewal is a pure function that, whenever the
advanced local instant still falls within years 1000-9999 (so that the unpadded
`getUTCFullYear()` of line 89 prints exactly four digits), produces the next
canonical timestamp string advanced by exactly the interval in seconds (the
produced string parses to the prior instant plus interval*1000 ms) while
preserving the original UTC offset token verbatim. For advanced instants before
year 1000 the claim fails: the year is written with fewer than four digits and
the output no longer parses (see the counterexample). -/
theorem renewNextIso_advances (y mo d h mi s oh om k : Nat) (neg : Bool)
    (hv : validDate y mo d = true) (hy : y ≤ 9999)
    (hh : h ≤ 23) (hmi : mi ≤ 59) (hs : s ≤ 59) (hoh : oh ≤ 23) (hom : om ≤ 59)
    (hk : 0 < k)
    (hlow : -30610224000000 ≤ epochMsOf y mo d h mi s neg oh om + (k : Int) * 1000 +
        offsetMs neg oh om)
    (hbound : epochMsOf y mo d h mi s neg oh om + (k : Int) * 1000 + offsetMs neg oh om
        < 253402300800000) :
    jsParseDate (renewNextIso (fmtTs y mo d h mi s neg oh om) (k : Int))
        = some (epochMsOf y mo d h mi s neg oh om + (k : Int) * 1000)
      ∧ offsetSuffix (renewNextIso (fmtTs y mo d h mi s neg oh om) (k : Int))
        = offsetSuffix (fmtTs y mo d h mi s neg oh om) := by
  have hparse := jsParseDate_fmtTs y mo d h mi s neg oh om hy hv hh hmi hs hoh hom
  have hsuf := offsetSuffix_fmtTs y mo d h mi s neg oh om hoh hom
  have hrenew : renewNextIso (fmtTs y mo d h mi s neg oh om) (k : Int) =
      ⟨formatUTCCore (epochMsOf y mo d h mi s neg oh om + (k : Int) * 1000 +
          offsetMs neg oh om) ++ fmtOffset neg oh om⟩ := by
    unfold renewNextIso
    rw [hparse, hsuf]
    simp only [Option.getD_some]
    rw [offMsOfTz_fmtOffset neg oh om hoh hom]
  rw [hrenew]
  -- name the intermediate quantities of formatUTCCore
  set local0 : Int := epochMsOf y mo d h mi s neg oh om + (k : Int) * 1000 + offsetMs neg oh om
    with hlocal0
  have hlocal_eq : local0 = ((civilToDay0 y mo d : Int) - 719528) * 86400000 +
      ((h : Int) * 3600000 + (mi : Int) * 60000 + (s : Int) * 1000) + (k : Int) * 1000 := by
    rw [hlocal0]; unfold epochMsOf epochMsOfCivil; ring
  have hciv_nonneg : (0 : Int) ≤ (civilToDay0 y mo d : Int) := Int.natCast_nonneg _
  have hk_nonneg : (0 : Int) ≤ (k : Int) := Int.natCast_nonneg _
  have hlocal_lb : (-719528) * 86400000 ≤ local0 := by
    rw [hlocal_eq]
    omega
  have h1000 : (1000 : Int) ∣ local0 := by
    rw [hlocal_eq]
    exact ⟨((civilToDay0 y mo d : Int) - 719528) * 86400 +
      ((h : Int) * 3600 + (mi : Int) * 60 + (s : Int)) + (k : Int), by ring⟩
  set days := local0.ediv 86400000 with hdays
  set msd := (local0.emod 86400000).toNat with hmsd
  set n := (days + 719528).toNat with hn
  have hed : 86400000 * days + local0.emod 86400000 = local0 := Int.ediv_add_emod local0 86400000
  have hemod_nonneg : 0 ≤ local0.emod 86400000 := Int.emod_nonneg local0 (by norm_num)
  have hemod_lt : local0.emod 86400000 < 86400000 := Int.emod_lt_of_pos local0 (by norm_num)
  have hform : formatUTCCore local0 = fmtCoreOut (day0ToCivil n).1 (day0ToCivil n).2.1
      (day0ToCivil n).2.2 (msd / 3600000) (msd / 60000 % 60) (msd / 1000 % 60) := rfl
  obtain ⟨hrt2, hmo2a, hmo2b, hd2a, hd2b, hy2⟩ := day0ToCivil_spec n
  have hmsd_lt : msd < 86400000 := by omega
  have hmsd_dvd : msd % 1000 = 0 := by omega
  have hn_int : (n : Int) = days + 719528 := by omega
  have hdays_lt : days < 2932897 := by omega
  have hn_lt : n < 3652425 := by omega
  have hn_ge : 365243 ≤ n := by omega
  have hy2_le : (day0ToCivil n).1 ≤ 9999 := by
    rw [hy2]
    exact yearFromDay0_le_of_lt n 9999 (by norm_num [show yearStart0 10000 = 3652425 from rfl]; omega)
  have hy2_ge : 1000 ≤ (day0ToCivil n).1 := by
    rw [hy2]
    exact yearFromDay0_ge n 1000 (by rw [show yearStart0 1000 = 365243 from rfl]; omega)
  have hv2 : validDate (day0ToCivil n).1 (day0ToCivil n).2.1 (day0ToCivil n).2.2 = true := by
    apply decide_eq_true
    exact ⟨hmo2a, hmo2b, hd2a, hd2b, by rw [hrt2]⟩
  have hparse2 := jsParseDate_fmtTs (day0ToCivil n).1 (day0ToCivil n).2.1 (day0ToCivil n).2.2
    (msd / 3600000) (msd / 60000 % 60) (msd / 1000 % 60) neg oh om
    hy2_le hv2 (by omega) (by omega) (by omega) hoh hom
  have hsuf2 := offsetSuffix_fmtTs (day0ToCivil n).1 (day0ToCivil n).2.1 (day0ToCivil n).2.2
    (msd / 3600000) (msd / 60000 % 60) (msd / 1000 % 60) neg oh om hoh hom
  have hfmt_eq : (⟨formatUTCCore local0 ++ fmtOffset neg oh om⟩ : String) =
      fmtTs (day0ToCivil n).1 (day0ToCivil n).2.1 (day0ToCivil n).2.2
        (msd / 3600000) (msd / 60000 % 60) (msd / 1000 % 60) neg oh om := by
    rw [hform, fmtCoreOut_eq_fmtCore (day0ToCivil n).1 (day0ToCivil n).2.1 (day0ToCivil n).2.2
      (msd / 3600000) (msd / 60000 % 60) (msd / 1000 % 60) hy2_ge hy2_le]
    rfl
  rw [hfmt_eq, hparse2, hsuf, hsuf2]
  refine ⟨?_, rfl⟩
  congr 1
  unfold epochMsOf epochMsOfCivil
  rw [hrt2]
  have hdecomp : 86400000 * days + local0.emod 86400000 = local0 := Int.ediv_add_emod local0 86400000
  omega

/-- The original C2 claim fails when the advanced instant lies before year
1000: the input below is canonical and parses, yet line 89 prints
`getUTCFullYear()` unpadded, so the renewal writes a three-digit year and the
produced string is not a canonical timestamp and does not re-parse. -/
theorem c2_counterexample :
    (jsParseDate "0500-01-01T10:00:00+08:00").isSome = true ∧
    renewNextIso "0500-01-01T10:00:00+08:00" 60 = "500-01-01T10:01:00+08:00" ∧
    jsParseDate (renewNextIso "0500-01-01T10:00:00+08:00" 60) = none := by
  exact ⟨by decide, by decide, by decide⟩

-- ───────────────────────────── JS value model ─────────────────────────────

/-- JSON/JS values as read from a task file. Numbers are modeled as integers
(the scheduler only tests and multiplies integral second counts; floats and NaN
are outside the modeled domain); objects are association lists. -/
inductive JVal where
  | vundef : JVal
  | vnull : JVal
  | vbool : Bool → JVal
  | vnum : Int → JVal
  | vstr : String → JVal
  | vobj : List (String × JVal) → JVal

/-- JS Map key comparison (SameValueZero) restricted to primitives; two object
keys are modeled as never equal (each discovery re-parses the file, so object
`taskId`s are distinct references). -/
def keyEq : JVal → JVal → Bool
  | .vundef, .vundef => true
  | .vnull, .vnull => true
  | .vbool a, .vbool b => a == b
  | .vnum a, .vnum b => a == b
  | .vstr a, .vstr b => a == b
  | _, _ => false

-- strict equality of a value against a string literal
def jstreq : JVal → String → Bool
  | .vstr s, t => s == t
  | _, _ => false

-- JS truthiness
def truthy : JVal → Bool
  | .vundef => false
  | .vnull => false
  | .vbool b => b
  | .vnum n => n != 0
  | .vstr s => s != ""
  | .vobj _ => true

-- property read; absent key or primitive receiver yields undefined
def getField : JVal → String → JVal
  | .vobj fs, k => match fs.lookup k with
    | some v => v
    | none => .vundef
  | _, _ => .vundef

def setFields : List (String × JVal) → String → JVal → List (String × JVal)
  | [], k, v => [(k, v)]
  | e :: rest, k, v => if e.1 = k then (k, v) :: rest else e :: setFields rest k v

-- property write `o.k = v`
def setField : JVal → String → JVal → JVal
  | .vobj fs, k, v => .vobj (setFields fs k v)
  | o, _, _ => o

def isNumber : JVal → Bool
  | .vnum _ => true
  | _ => false

def numVal : JVal → Int
  | .vnum n => n
  | _ => 0

-- template-literal coercion
def jsToString : JVal → String
  | .vundef => "undefined"
  | .vnull => "null"
  | .vbool b => if b then "true" else "false"
  | .vnum n => toString n
  | .vstr s => s
  | .vobj _ => "[object Object]"

-- new Date(x): strings parse, numbers and null/bool coerce, others are Invalid Date
def jsDateOf : JVal → Option Int
  | .vstr s => jsParseDate s
  | .vnum n => some n
  | .vnull => some 0
  | .vbool b => some (if b then 1 else 0)
  | _ => none

theorem getField_setField_same (fs : List (String × JVal)) (k : String) (v : JVal) :
    getField (setField (.vobj fs) k v) k = v := by
  induction fs with
  | nil => simp [setField, setFields, getField, List.lookup]
  | cons e rest ih =>
      by_cases h : e.1 = k
      · simp [setField, setFields, h, getField, List.lookup]
      · simp only [setField, setFields, if_neg h]
        simp only [setField] at ih
        simpa [getField, List.lookup, show (k == e.1) = false from
          by simp [beq_eq_false_iff_ne]; exact fun hc => h hc.symm] using ih

theorem getField_setField_other (o : JVal) (k k2 : String) (v : JVal) (h : k2 ≠ k) :
    getField (setField o k v) k2 = getField o k2 := by
  cases o with
  | vobj fs =>
      induction fs with
      | nil =>
          simp [setField, setFields, getField, List.lookup,
            show (k2 == k) = false from by simp [beq_eq_false_iff_ne]; exact h]
      | cons e rest ih =>
          by_cases he : e.1 = k
          · rw [show (e : String × JVal) = (e.1, e.2) from rfl, he]
            simp [setField, setFields, getField, List.lookup,
              show (k2 == k) = false from by simp [beq_eq_false_iff_ne]; exact h]
          · simp only [setField, setFields, if_neg he]
            simp only [setField] at ih
            by_cases hk2 : k2 = e.1
            · simp [getField, List.lookup, hk2]
            · simpa [getField, List.lookup, show (k2 == e.1) = false from
                by simp [beq_eq_false_iff_ne]; exact hk2] using ih
  | vundef => simp [setField]
  | vnull => simp [setField]
  | vbool b => simp [setField]
  | vnum n => simp [setField]
  | vstr s => simp [setField]

theorem getField_vobj_of_vstr (o : JVal) (k : String) (s : String)
    (h : getField o k = .vstr s) : ∃ fs, o = .vobj fs := by
  cases o <;> simp_all [getField]

-- ──────────────────────────── scheduler model ────────────────────────────

structure Broadcast where
  status : String
  source : String

inductive FileOp where
  | rewrite : JVal → FileOp       -- fs.writeFile(filePath, JSON.stringify(task))
  | deleteAttempt : FileOp        -- fs.unlink(filePath), best effort

structure ExecOutcome where
  invocation : Option (JVal × JVal)  -- (tool_name, arguments) given to pluginManager.processToolCall
  reports : List Broadcast           -- webSocketServer.broadcast events
  fileOp : FileOp

structure ScheduledJob where
  due : Int
  task : JVal

/-- scheduledJobs: Map taskId → node-schedule Job; `none` is the `null` handle
node-schedule returns for a date that never fires. -/
abbrev Registry := List (JVal × Option ScheduledJob)

def hasKey (reg : Registry) (k : JVal) : Bool := reg.any fun e => keyEq e.1 k

def getJob (reg : Registry) (k : JVal) : Option (Option ScheduledJob) :=
  (reg.find? fun e => keyEq e.1 k).map (·.2)

def setJob : Registry → JVal → Option ScheduledJob → Registry
  | [], k, j => [(k, j)]
  | e :: rest, k, j => if keyEq e.1 k then (k, j) :: rest else e :: setJob rest k j

def delKey : Registry → JVal → Registry
  | [], _ => []
  | e :: rest, k => if keyEq e.1 k then rest else e :: delKey rest k

-- `${getFullYear()}-..` of new Date(s) in the server's local fixed-offset zone
-- (line 17); an Invalid Date renders every component as NaN
def fmtLocalChars (y mo d h mi s : Nat) : List Char :=
  yearDigits y ++ '-' :: pad2 mo ++ '-' :: pad2 d ++ ' ' :: pad2 h ++ ':' :: pad2 mi ++
    ':' :: pad2 s

def formattedLocalTime (task : JVal) (localOffMs : Int) : String :=
  match jsDateOf (getField task "scheduledLocalTime") with
  | some t =>
      let lt := t + localOffMs
      let msd := (lt.emod 86400000).toNat
      let n := (lt.ediv 86400000 + 719528).toNat
      ⟨fmtLocalChars (day0ToCivil n).1 (day0ToCivil n).2.1 (day0ToCivil n).2.2
        (msd / 3600000) (msd / 60000 % 60) (msd / 1000 % 60)⟩
  | none => "NaN-NaN-NaN NaN:NaN:NaN"

/-- The `finally` block (lines 71-114): renewal for a valid positive numeric
`interval`, else one-shot deletion. A non-string `scheduledLocalTime` throws at
`.match` (before the registry delete) and the catch degrades to delete; a
failing rewrite (¬writeOk) is caught and degrades to delete. -/
def cleanupPhase (task : JVal) (writeOk : Bool) (reg : Registry) : Registry × FileOp :=
  let iv := getField task "interval"
  if truthy iv ∧ isNumber iv = true ∧ 0 < numVal iv then
    match getField task "scheduledLocalTime" with
    | .vstr prev =>
        let task2 := setField task "scheduledLocalTime" (.vstr (renewNextIso prev (numVal iv)))
        let reg2 := delKey reg (getField task "taskId")
        if writeOk then (reg2, .rewrite task2) else (reg2, .deleteAttempt)
    | _ => (reg, .deleteAttempt)
  else (reg, .deleteAttempt)

/-- executeTimedContact (lines 14-115). `backend` is the awaited outcome of
`pluginManager.processToolCall`; a thrown error is caught and reported and never
reaches the cleanup decision (the `finally` block always runs, also after the
early return for an invalid `tool_call`). `localOffMs` is the server's local
UTC offset. The `AgentAssistant` prompt mutation (lines 35-37) happens in place
on the object the record shares with `task`, so the cleanup rewrite sees it. -/
def executeTimedContact (task : JVal) (backend : Except String JVal) (writeOk : Bool)
    (localOffMs : Int) (reg : Registry) : Registry × ExecOutcome :=
  let tc := getField task "tool_call"
  let valid := truthy tc = true ∧ truthy (getField tc "tool_name") = true ∧
    truthy (getField tc "arguments") = true
  let args := getField tc "arguments"
  let mutate := valid ∧ jstreq (getField tc "tool_name") "AgentAssistant" = true ∧
    truthy (getField args "prompt") = true
  let args2 :=
    if mutate then
      setField args "prompt" (.vstr ("[预定通讯: " ++ formattedLocalTime task localOffMs ++
        "] " ++ jsToString (getField args "prompt")))
    else args
  let task2 := if mutate then setField task "tool_call" (setField tc "arguments" args2) else task
  let c := cleanupPhase task2 writeOk reg
  if ¬valid then
    (c.1, ⟨none, [⟨"error", "task_scheduler_executor_error"⟩], c.2⟩)
  else
    match backend with
    | .ok _ => (c.1, ⟨some (getField tc "tool_name", args2),
        [⟨"success", "task_scheduler_executor"⟩], c.2⟩)
    | .error _ => (c.1, ⟨some (getField tc "tool_name", args2),
        [⟨"error", "task_scheduler_executor_error"⟩], c.2⟩)

inductive SchedAction where
  | execute : JVal → SchedAction    -- executeTimedContact was started for this task

/-- scheduleTaskFromFile (lines 117-151) on an already-JSON-parsed task; read or
parse failures are swallowed by the catch and amount to a no-op. Returns the new
registry and any immediate execution. `schedule.scheduleJob` yields a live job
for a valid future date and `null` (`none`) otherwise; an unparseable date
compares `NaN <= now`, which is false, so it reaches the scheduling branch. -/
def scheduleTaskFromFile (now : Int) (reg : Registry) (task : JVal) :
    Registry × List SchedAction :=
  if ¬(truthy (getField task "scheduledLocalTime") = true ∧
      truthy (getField task "taskId") = true) then (reg, [])
  else if hasKey reg (getField task "taskId") then (reg, [])
  else
    match jsDateOf (getField task "scheduledLocalTime") with
    | some t =>
        if t ≤ now then (reg, [.execute task])
        else (setJob reg (getField task "taskId") (some ⟨t, task⟩), [])
    | none => (setJob reg (getField task "taskId") none, [])

/-- Watcher reaction to a vanished file (lines 166-175): cancel and remove the
pending entry keyed by the taskId derived from the filename. -/
def watcherOnDeleted (reg : Registry) (tid : String) : Registry :=
  if hasKey reg (.vstr tid) then delKey reg (.vstr tid) else reg

inductive TEvent where
  | discover : Int → JVal → TEvent        -- watcher change / startup scan, at a time, with the parsed record
  | fileDeleted : Int → String → TEvent   -- watcher: file gone, taskId from filename
  | fire : Int → JVal → TEvent            -- a pending timer fires

def timeOf : TEvent → Int
  | .discover t _ => t
  | .fileDeleted t _ => t
  | .fire t _ => t

/-- One event-loop turn. A fire only happens for a live registry entry exactly
at its due instant (node-schedule semantics; a cancelled or null job never
fires); the callback removes its own entry (line 140). -/
def stepEvent (reg : Registry) : TEvent → Registry × List SchedAction
  | .discover now task => scheduleTaskFromFile now reg task
  | .fileDeleted _ tid => (watcherOnDeleted reg tid, [])
  | .fire now k =>
      match getJob reg k with
      | some (some j) => if now = j.due then (delKey reg k, [.execute j.task]) else (reg, [])
      | _ => (reg, [])

def runTrace (reg : Registry) : List TEvent → Registry × List SchedAction
  | [] => (reg, [])
  | e :: rest =>
      ((runTrace (stepEvent reg e).1 rest).1,
        (stepEvent reg e).2 ++ (runTrace (stepEvent reg e).1 rest).2)

-- sanity checks on concrete inputs
example :
    (scheduleTaskFromFile 0 []
      (.vobj [("taskId", .vstr "t1"), ("scheduledLocalTime", .vstr "not-a-date")])).2.isEmpty = true := by
  decide

example :
    hasKey (scheduleTaskFromFile 0 []
      (.vobj [("taskId", .vstr "t1"), ("scheduledLocalTime", .vstr "not-a-date")])).1
      (.vstr "t1") = true := by
  decide

example :
    hasKey (scheduleTaskFromFile 0 []
      (.vobj [("taskId", .vstr "t7"),
              ("scheduledLocalTime", .vstr "2026-01-01T10:00:00+08:00")])).1
      (.vstr "t7") = true := by
  decide

-- ──────────────────────────── registry lemmas ────────────────────────────

theorem keyEq_eq {a b : JVal} (h : keyEq a b = true) : a = b := by
  cases a <;> cases b <;> simp_all [keyEq]

def keysNodupR (reg : Registry) : Prop :=
  List.Pairwise (fun a b => keyEq a.1 b.1 = false) reg

theorem hasKey_setJob_self (reg : Registry) (k : JVal) (j : Option ScheduledJob)
    (hk : keyEq k k = true) : hasKey (setJob reg k j) k = true := by
  induction reg with
  | nil => simp [setJob, hasKey, List.any, hk]
  | cons e rest ih =>
      unfold setJob
      split
      · simp [hasKey, hk]
      · simp only [hasKey, List.any_cons] at ih ⊢
        simp_all

theorem mem_setJob {reg : Registry} {k : JVal} {j : Option ScheduledJob}
    {b : JVal × Option ScheduledJob} (hb : b ∈ setJob reg k j) : b = (k, j) ∨ b ∈ reg := by
  induction reg with
  | nil => simpa [setJob] using hb
  | cons e rest ih =>
      unfold setJob at hb
      split at hb
      · rcases List.mem_cons.mp hb with hb | hb
        · exact Or.inl hb
        · exact Or.inr (List.mem_cons_of_mem e hb)
      · rcases List.mem_cons.mp hb with hb | hb
        · exact Or.inr (by simp [hb])
        · rcases ih hb with h2 | h2
          · exact Or.inl h2
          · exact Or.inr (List.mem_cons_of_mem e h2)

theorem keysNodupR_setJob (reg : Registry) (k : JVal) (j : Option ScheduledJob)
    (h : keysNodupR reg) : keysNodupR (setJob reg k j) := by
  induction reg with
  | nil => simp [setJob, keysNodupR]
  | cons e rest ih =>
      unfold keysNodupR at h ⊢
      rw [List.pairwise_cons] at h
      unfold setJob
      split
      · rename_i hke
        have he := keyEq_eq hke
        rw [List.pairwise_cons]
        refine ⟨fun b hb => ?_, h.2⟩
        have := h.1 b hb
        rw [← he]
        exact this
      · rename_i hke
        rw [List.pairwise_cons]
        refine ⟨fun b hb => ?_, ih h.2⟩
        rcases mem_setJob hb with hb2 | hb2
        · rw [hb2]
          simpa using hke
        · exact h.1 b hb2

theorem delKey_sublist (reg : Registry) (k : JVal) : (delKey reg k).Sublist reg := by
  induction reg with
  | nil => simp [delKey]
  | cons e rest ih =>
      unfold delKey
      split
      · exact List.sublist_cons_self e rest
      · exact List.Sublist.cons₂ e ih

theorem keysNodupR_delKey (reg : Registry) (k : JVal) (h : keysNodupR reg) :
    keysNodupR (delKey reg k) :=
  List.Pairwise.sublist (delKey_sublist reg k) h

theorem hasKey_delKey_self (reg : Registry) (k : JVal) (h : keysNodupR reg) :
    hasKey (delKey reg k) k = false := by
  induction reg with
  | nil => simp [delKey, hasKey]
  | cons e rest ih =>
      unfold keysNodupR at h
      rw [List.pairwise_cons] at h
      unfold delKey
      split
      · rename_i hke
        have he := keyEq_eq hke
        subst he
        simp only [hasKey, List.any_eq_false]
        intro x hx
        by_contra hc
        have hx1 := keyEq_eq hc
        have h2 := h.1 x hx
        rw [hx1] at h2
        rw [hx1, h2] at hc
        exact Bool.noConfusion hc
      · rename_i hke
        simp only [hasKey, List.any_cons]
        have : keyEq e.1 k = false := by simpa using hke
        simp only [this, Bool.false_or]
        exact ih h.2

-- ─────────────────────────── claim theorems (executor) ───────────────────────────

/-- C3: the cleanup phase runs unconditionally and produces the same registry
update and file operation whether the backend returned a result or threw. -/
theorem cleanup_independent_of_backend (task : JVal) (r : JVal) (e : String)
    (writeOk : Bool) (localOffMs : Int) (reg : Registry) :
    (executeTimedContact task (.ok r) writeOk localOffMs reg).1 =
      (executeTimedContact task (.error e) writeOk localOffMs reg).1 ∧
    (executeTimedContact task (.ok r) writeOk localOffMs reg).2.fileOp =
      (executeTimedContact task (.error e) writeOk localOffMs reg).2.fileOp := by
  simp only [executeTimedContact]
  split
  · exact ⟨rfl, rfl⟩
  · exact ⟨rfl, rfl⟩

/-- C10: an absent, non-numeric, or non-positive interval takes the one-shot
branch: the registry is untouched and deletion of the file is attempted. -/
theorem oneshot_cleanup (task : JVal) (backend : Except String JVal) (writeOk : Bool)
    (localOffMs : Int) (reg : Registry)
    (hiv : ¬(truthy (getField task "interval") = true ∧
        isNumber (getField task "interval") = true ∧ 0 < numVal (getField task "interval"))) :
    (executeTimedContact task backend writeOk localOffMs reg).1 = reg ∧
    (executeTimedContact task backend writeOk localOffMs reg).2.fileOp = .deleteAttempt := by
  simp only [executeTimedContact]
  have hclean : ∀ t2 : JVal, getField t2 "interval" = getField task "interval" →
      cleanupPhase t2 writeOk reg = (reg, .deleteAttempt) := by
    intro t2 ht2
    unfold cleanupPhase
    rw [ht2, if_neg hiv]
  split
  · rw [hclean _ (by
      split
      · exact getField_setField_other _ _ _ _ (by decide)
      · rfl)]
    exact ⟨rfl, rfl⟩
  · cases backend with
    | ok r =>
        rw [hclean _ (by
          split
          · exact getField_setField_other _ _ _ _ (by decide)
          · rfl)]
        exact ⟨rfl, rfl⟩
    | error s =>
        rw [hclean _ (by
          split
          · exact getField_setField_other _ _ _ _ (by decide)
          · rfl)]
        exact ⟨rfl, rfl⟩

/-- C9: for a recurring task whose tool is not AgentAssistant-with-prompt, the
renewal rewrite changes only `scheduledLocalTime`; taskId, interval and
tool_call are written back unchanged. -/
theorem renewal_rewrites_only_time (task : JVal) (backend : Except String JVal)
    (localOffMs : Int) (reg : Registry) (prev : String)
    (hiv : truthy (getField task "interval") = true ∧
      isNumber (getField task "interval") = true ∧ 0 < numVal (getField task "interval"))
    (hprev : getField task "scheduledLocalTime" = .vstr prev)
    (hnomut : ¬(jstreq (getField (getField task "tool_call") "tool_name") "AgentAssistant" = true ∧
      truthy (getField (getField (getField task "tool_call") "arguments") "prompt") = true)) :
    ∃ t2, (executeTimedContact task backend true localOffMs reg).2.fileOp = .rewrite t2 ∧
      getField t2 "taskId" = getField task "taskId" ∧
      getField t2 "interval" = getField task "interval" ∧
      getField t2 "tool_call" = getField task "tool_call" ∧
      getField t2 "scheduledLocalTime" =
        .vstr (renewNextIso prev (numVal (getField task "interval"))) := by
  obtain ⟨fs, hfs⟩ := getField_vobj_of_vstr task "scheduledLocalTime" prev hprev
  have hmut : ¬((truthy (getField task "tool_call") = true ∧
      truthy (getField (getField task "tool_call") "tool_name") = true ∧
      truthy (getField (getField task "tool_call") "arguments") = true) ∧
      jstreq (getField (getField task "tool_call") "tool_name") "AgentAssistant" = true ∧
      truthy (getField (getField (getField task "tool_call") "arguments") "prompt") = true) :=
    fun hc => hnomut hc.2
  have hclean : cleanupPhase task true reg =
      (delKey reg (getField task "taskId"),
        .rewrite (setField task "scheduledLocalTime"
          (.vstr (renewNextIso prev (numVal (getField task "interval")))))) := by
    unfold cleanupPhase
    rw [if_pos hiv, hprev]
    rfl
  refine ⟨setField task "scheduledLocalTime"
      (.vstr (renewNextIso prev (numVal (getField task "interval")))), ?_,
    getField_setField_other _ _ _ _ (by decide),
    getField_setField_other _ _ _ _ (by decide),
    getField_setField_other _ _ _ _ (by decide),
    by rw [hfs]; exact getField_setField_same _ _ _⟩
  simp only [executeTimedContact, if_neg hmut]
  split
  · rw [hclean]
  · cases backend with
    | ok r => rw [hclean]
    | error s => rw [hclean]

/-- C6 (amended): for a firing task whose tool is not AgentAssistant-with-prompt,
the arguments value is handed to the backend unchanged; the AgentAssistant
prompt mutation is the sole exception (see the counterexample). -/
theorem args_passed_verbatim (task : JVal) (backend : Except String JVal) (writeOk : Bool)
    (localOffMs : Int) (reg : Registry)
    (hvalid : truthy (getField task "tool_call") = true ∧
      truthy (getField (getField task "tool_call") "tool_name") = true ∧
      truthy (getField (getField task "tool_call") "arguments") = true)
    (hnomut : ¬(jstreq (getField (getField task "tool_call") "tool_name") "AgentAssistant" = true ∧
      truthy (getField (getField (getField task "tool_call") "arguments") "prompt") = true)) :
    (executeTimedContact task backend writeOk localOffMs reg).2.invocation =
      some (getField (getField task "tool_call") "tool_name",
        getField (getField task "tool_call") "arguments") := by
  have hmut : ¬((truthy (getField task "tool_call") = true ∧
      truthy (getField (getField task "tool_call") "tool_name") = true ∧
      truthy (getField (getField task "tool_call") "arguments") = true) ∧
      jstreq (getField (getField task "tool_call") "tool_name") "AgentAssistant" = true ∧
      truthy (getField (getField (getField task "tool_call") "arguments") "prompt") = true) :=
    fun hc => hnomut hc.2
  simp only [executeTimedContact, if_neg hmut, if_neg (not_not_intro hvalid)]
  cases backend with
  | ok r => rfl
  | error s => rfl

/-- C7 (amended): a record missing tool_call.tool_name or tool_call.arguments is
rejected with a reported error when it fires, and the backend is never invoked
for it; discovery itself does not reject it (see the counterexample). -/
theorem invalid_record_rejected_at_execution (task : JVal) (backend : Except String JVal)
    (writeOk : Bool) (localOffMs : Int) (reg : Registry)
    (hinv : ¬(truthy (getField task "tool_call") = true ∧
      truthy (getField (getField task "tool_call") "tool_name") = true ∧
      truthy (getField (getField task "tool_call") "arguments") = true)) :
    (executeTimedContact task backend writeOk localOffMs reg).2.invocation = none ∧
    (executeTimedContact task backend writeOk localOffMs reg).2.reports =
      [⟨"error", "task_scheduler_executor_error"⟩] := by
  have hres : executeTimedContact task backend writeOk localOffMs reg =
      ((cleanupPhase task writeOk reg).1,
        ⟨none, [⟨"error", "task_scheduler_executor_error"⟩], (cleanupPhase task writeOk reg).2⟩) := by
    simp only [executeTimedContact, if_pos hinv]
    split_ifs with hc
    · exact absurd hc.1 hinv
    · rfl
  rw [hres]
  exact ⟨rfl, rfl⟩

-- ─────────────────────────── claim theorems (discovery) ───────────────────────────

/-- C4: a record already due at discovery executes immediately, exactly once,
and the registry is left unchanged (no entry is created for it). -/
theorem expired_executes_immediately (now : Int) (reg : Registry) (task : JVal) (t : Int)
    (h1 : truthy (getField task "scheduledLocalTime") = true)
    (h2 : truthy (getField task "taskId") = true)
    (h3 : hasKey reg (getField task "taskId") = false)
    (hdt : jsDateOf (getField task "scheduledLocalTime") = some t)
    (hle : t ≤ now) :
    scheduleTaskFromFile now reg task = (reg, [.execute task]) := by
  unfold scheduleTaskFromFile
  rw [if_neg (not_not_intro ⟨h1, h2⟩), if_neg (by rw [h3]; exact Bool.false_ne_true), hdt]
  simp only [if_pos hle]

/-- C8 (amended): an unparseable `scheduledLocalTime` is never executed and
never crashes the engine, but discovery is not a pure skip: it records a
registry entry for the taskId holding the null handle the scheduling library
returns for an invalid date (see the counterexample). -/
theorem unparseable_registers_null_entry (now : Int) (reg : Registry) (task : JVal)
    (tid : String)
    (h1 : truthy (getField task "scheduledLocalTime") = true)
    (h2 : truthy (getField task "taskId") = true)
    (htid : getField task "taskId" = .vstr tid)
    (h3 : hasKey reg (getField task "taskId") = false)
    (hdt : jsDateOf (getField task "scheduledLocalTime") = none) :
    scheduleTaskFromFile now reg task = (setJob reg (.vstr tid) none, []) ∧
    hasKey (setJob reg (.vstr tid) none) (.vstr tid) = true := by
  unfold scheduleTaskFromFile
  rw [if_neg (not_not_intro ⟨h1, h2⟩),
    if_neg (by rw [h3]; exact Bool.false_ne_true), hdt, htid]
  exact ⟨rfl, hasKey_setJob_self reg (.vstr tid) none (by simp [keyEq])⟩

-- ─────────────────────────── counterexample inputs ───────────────────────────

def c6task : JVal :=
  .vobj [("taskId", .vstr "t6"), ("scheduledLocalTime", .vstr "2026-01-01T10:00:00+08:00"),
    ("tool_call", .vobj [("tool_name", .vstr "AgentAssistant"),
      ("arguments", .vobj [("prompt", .vstr "hi")])])]

-- the prompt reaching the backend is not the stored prompt: passing is not verbatim
example :
    ((executeTimedContact c6task (.ok .vnull) true 28800000 []).2.invocation.map
      (fun p => jsToString (getField p.2 "prompt"))) = some "[预定通讯: 2026-01-01 10:00:00] hi" := by
  decide

def c7task : JVal :=
  .vobj [("taskId", .vstr "t7"), ("scheduledLocalTime", .vstr "2026-01-01T10:00:00+08:00")]

example : hasKey (scheduleTaskFromFile 0 [] c7task).1 (.vstr "t7") = true := by decide

def c8task : JVal :=
  .vobj [("taskId", .vstr "t8"), ("scheduledLocalTime", .vstr "not-a-date")]

example : hasKey (scheduleTaskFromFile 0 [] c8task).1 (.vstr "t8") = true := by decide

-- ─────────────────────────── claim theorems (registry/trace) ───────────────────────────

theorem schedule_noop_of_present (now : Int) (reg : Registry) (task : JVal)
    (hk : hasKey reg (getField task "taskId") = true) :
    scheduleTaskFromFile now reg task = (reg, []) := by
  unfold scheduleTaskFromFile
  by_cases hg : ¬(truthy (getField task "scheduledLocalTime") = true ∧
      truthy (getField task "taskId") = true)
  · rw [if_pos hg]
  · rw [if_neg hg, if_pos hk]

theorem stepEvent_nodup (reg : Registry) (e : TEvent) (h : keysNodupR reg) :
    keysNodupR (stepEvent reg e).1 := by
  cases e with
  | discover now task =>
      show keysNodupR (scheduleTaskFromFile now reg task).1
      unfold scheduleTaskFromFile
      by_cases h1 : ¬(truthy (getField task "scheduledLocalTime") = true ∧
          truthy (getField task "taskId") = true)
      · rw [if_pos h1]; exact h
      · rw [if_neg h1]
        by_cases h2 : hasKey reg (getField task "taskId") = true
        · rw [if_pos h2]; exact h
        · rw [if_neg h2]
          cases hj : jsDateOf (getField task "scheduledLocalTime") with
          | none => exact keysNodupR_setJob _ _ _ h
          | some t =>
              show keysNodupR (if t ≤ now then (reg, [SchedAction.execute task])
                else (setJob reg (getField task "taskId") (some ⟨t, task⟩), [])).1
              by_cases h3 : t ≤ now
              · rw [if_pos h3]; exact h
              · rw [if_neg h3]; exact keysNodupR_setJob _ _ _ h
  | fileDeleted tt tid =>
      show keysNodupR (watcherOnDeleted reg tid)
      unfold watcherOnDeleted
      split
      · exact keysNodupR_delKey _ _ h
      · exact h
  | fire now k =>
      simp only [stepEvent]
      cases hj : getJob reg k with
      | none => exact h
      | some jo =>
          cases jo with
          | none => exact h
          | some j =>
              show keysNodupR (if now = j.due then (delKey reg k, [SchedAction.execute j.task])
                else (reg, [])).1
              by_cases ht : now = j.due
              · rw [if_pos ht]; exact keysNodupR_delKey _ _ h
              · rw [if_neg ht]; exact h

theorem runTrace_nodup (evs : List TEvent) : ∀ reg : Registry,
    keysNodupR reg → keysNodupR (runTrace reg evs).1 := by
  induction evs with
  | nil => intro reg h; exact h
  | cons e rest ih =>
      intro reg h
      exact ih _ (stepEvent_nodup reg e h)

/-- C1: discovering a record whose taskId is already scheduled is a strict
no-op (no second timer, no execution), and every registry reachable from the
empty one holds at most one entry per key. -/
theorem registry_at_most_one (now : Int) (reg : Registry) (task : JVal)
    (hk : hasKey reg (getField task "taskId") = true) :
    scheduleTaskFromFile now reg task = (reg, []) ∧
    (∀ evs : List TEvent, keysNodupR (runTrace [] evs).1) :=
  ⟨schedule_noop_of_present now reg task hk,
    fun evs => runTrace_nodup evs [] (by simp [keysNodupR])⟩

theorem registry_at_most_one_witness :
    hasKey [((JVal.vstr "t7"), (none : Option ScheduledJob))] (getField c7task "taskId") = true ∧
    scheduleTaskFromFile 0 [(JVal.vstr "t7", none)] c7task = ([(JVal.vstr "t7", none)], []) := by
  refine ⟨by decide, ?_⟩
  exact (registry_at_most_one 0 [(JVal.vstr "t7", none)] c7task (by decide)).1

-- ─────────────────────────── C5: cancellation machinery ───────────────────────────

theorem mem_delKey {reg : Registry} {k : JVal} {b : JVal × Option ScheduledJob}
    (h : b ∈ delKey reg k) : b ∈ reg := (delKey_sublist reg k).subset h

theorem mem_watcherOnDeleted {reg : Registry} {t : String} {b : JVal × Option ScheduledJob}
    (h : b ∈ watcherOnDeleted reg t) : b ∈ reg := by
  unfold watcherOnDeleted at h
  split at h
  · exact mem_delKey h
  · exact h

theorem getJob_mem (reg : Registry) (k : JVal) (jo : Option ScheduledJob)
    (h : getJob reg k = some jo) : ∃ e, e ∈ reg ∧ e.1 = k ∧ e.2 = jo := by
  unfold getJob at h
  cases hf : reg.find? (fun e => keyEq e.1 k) with
  | none => rw [hf] at h; simp at h
  | some e =>
      rw [hf] at h
      rw [show (some e).map (fun x : JVal × Option ScheduledJob => x.2) = some e.2 from rfl] at h
      refine ⟨e, List.mem_of_find?_eq_some hf, keyEq_eq ?_, Option.some.inj h⟩
      have h2 := List.find?_some hf
      simpa using h2

theorem getJob_none_of_not_hasKey (reg : Registry) (k : JVal) (h : hasKey reg k = false) :
    getJob reg k = none := by
  unfold getJob
  cases hf : reg.find? (fun e => keyEq e.1 k) with
  | none => rfl
  | some e =>
      have h1 := List.find?_some hf
      have h2 := List.mem_of_find?_eq_some hf
      unfold hasKey at h
      rw [List.any_eq_false] at h
      exact absurd h1 (h e h2)

theorem hasKey_of_mem_vstr {reg : Registry} {e : JVal × Option ScheduledJob} {s : String}
    (he : e ∈ reg) (hs : e.1 = .vstr s) : hasKey reg (.vstr s) = true := by
  unfold hasKey
  rw [List.any_eq_true]
  exact ⟨e, he, by rw [hs]; simp [keyEq]⟩

theorem hasKey_setJob (reg : Registry) (k : JVal) (j : Option ScheduledJob) (k2 : JVal) :
    hasKey (setJob reg k j) k2 = (hasKey reg k2 || keyEq k k2) := by
  induction reg with
  | nil => simp [setJob, hasKey]
  | cons e rest ih =>
      unfold setJob
      split
      · rename_i hke
        have he := keyEq_eq hke
        simp only [hasKey, List.any_cons] at *
        rw [← he]
        cases keyEq e.1 k2 <;> simp
      · simp only [hasKey, List.any_cons] at *
        rw [ih]
        cases keyEq e.1 k2 <;> simp

theorem hasKey_delKey_mono (reg : Registry) (k k2 : JVal) (h : hasKey reg k2 = false) :
    hasKey (delKey reg k) k2 = false := by
  unfold hasKey at *
  rw [List.any_eq_false] at *
  exact fun x hx => h x (mem_delKey hx)

theorem hasKey_watcherOnDeleted_self (reg : Registry) (tid : String) (hnod : keysNodupR reg) :
    hasKey (watcherOnDeleted reg tid) (.vstr tid) = false := by
  unfold watcherOnDeleted
  split
  · exact hasKey_delKey_self reg (.vstr tid) hnod
  · rename_i h
    simp only [Bool.not_eq_true] at h
    exact h

-- branch analysis of discovery
theorem scheduleTaskFromFile_cases (now : Int) (reg : Registry) (task : JVal) :
    (scheduleTaskFromFile now reg task = (reg, []))
    ∨ (∃ t, jsDateOf (getField task "scheduledLocalTime") = some t ∧ t ≤ now ∧
        scheduleTaskFromFile now reg task = (reg, [.execute task]))
    ∨ (∃ t, jsDateOf (getField task "scheduledLocalTime") = some t ∧ ¬(t ≤ now) ∧
        scheduleTaskFromFile now reg task =
          (setJob reg (getField task "taskId") (some ⟨t, task⟩), []))
    ∨ (jsDateOf (getField task "scheduledLocalTime") = none ∧
        scheduleTaskFromFile now reg task = (setJob reg (getField task "taskId") none, [])) := by
  unfold scheduleTaskFromFile
  by_cases h1 : ¬(truthy (getField task "scheduledLocalTime") = true ∧
      truthy (getField task "taskId") = true)
  · left; rw [if_pos h1]
  · rw [if_neg h1]
    by_cases h2 : hasKey reg (getField task "taskId") = true
    · left; rw [if_pos h2]
    · rw [if_neg h2]
      cases hj : jsDateOf (getField task "scheduledLocalTime") with
      | none => right; right; right; exact ⟨rfl, rfl⟩
      | some t =>
          by_cases h3 : t ≤ now
          · right; left
            refine ⟨t, rfl, h3, ?_⟩
            show (if t ≤ now then (reg, [SchedAction.execute task])
              else (setJob reg (getField task "taskId") (some ⟨t, task⟩), [])) =
              (reg, [SchedAction.execute task])
            rw [if_pos h3]
          · right; right; left
            refine ⟨t, rfl, h3, ?_⟩
            show (if t ≤ now then (reg, [SchedAction.execute task])
              else (setJob reg (getField task "taskId") (some ⟨t, task⟩), [])) =
              (setJob reg (getField task "taskId") (some ⟨t, task⟩), [])
            rw [if_neg h3]

theorem stepEvent_fire_cases (reg : Registry) (now : Int) (k : JVal) :
    (stepEvent reg (.fire now k) = (reg, []))
    ∨ (∃ j, getJob reg k = some (some j) ∧ now = j.due ∧
        stepEvent reg (.fire now k) = (delKey reg k, [.execute j.task])) := by
  simp only [stepEvent]
  cases hj : getJob reg k with
  | none => left; rfl
  | some jo =>
      cases jo with
      | none => left; rfl
      | some j =>
          by_cases ht : now = j.due
          · right
            refine ⟨j, rfl, ht, ?_⟩
            show (if now = j.due then (delKey reg k, [SchedAction.execute j.task]) else (reg, []))
              = (delKey reg k, [SchedAction.execute j.task])
            rw [if_pos ht]
          · left
            show (if now = j.due then (delKey reg k, [SchedAction.execute j.task]) else (reg, []))
              = (reg, [])
            rw [if_neg ht]

/-- Well-formed registry: every live entry's job closes over the task whose
taskId is the entry's key (discovery stores the timer under task.taskId). -/
def wfReg (reg : Registry) : Prop :=
  ∀ e ∈ reg, ∀ j : ScheduledJob, e.2 = some j → getField j.task "taskId" = e.1

/-- Every live entry for this taskId is due exactly at D. -/
def tidJobsOk (tid : String) (D : Int) (reg : Registry) : Prop :=
  ∀ e ∈ reg, e.1 = JVal.vstr tid → ∀ j : ScheduledJob, e.2 = some j → j.due = D

/-- None of these scheduler actions starts executing a task with this taskId. -/
def noExecFor (tid : String) (acts : List SchedAction) : Prop :=
  ∀ t : JVal, SchedAction.execute t ∈ acts → getField t "taskId" ≠ JVal.vstr tid

theorem noExecFor_nil (tid : String) : noExecFor tid [] := by
  intro t ht
  simp at ht

theorem noExecFor_append {tid : String} {a1 a2 : List SchedAction}
    (h1 : noExecFor tid a1) (h2 : noExecFor tid a2) : noExecFor tid (a1 ++ a2) := by
  intro t ht
  rcases List.mem_append.mp ht with h | h
  · exact h1 t h
  · exact h2 t h

theorem phase1_step (tid : String) (D tdel : Int) (reg : Registry) (e : TEvent)
    (htime : timeOf e ≤ tdel) (htdel : tdel < D)
    (hdisc : ∀ now task, e = .discover now task → getField task "taskId" = .vstr tid →
      jsDateOf (getField task "scheduledLocalTime") = some D)
    (hinv : tidJobsOk tid D reg) (hwf : wfReg reg) :
    tidJobsOk tid D (stepEvent reg e).1 ∧ wfReg (stepEvent reg e).1 ∧
      noExecFor tid (stepEvent reg e).2 := by
  cases e with
  | discover now task =>
      have hstep : stepEvent reg (.discover now task) = scheduleTaskFromFile now reg task := rfl
      rw [hstep]
      have hdisc' := hdisc now task rfl
      have htime' : now ≤ tdel := htime
      rcases scheduleTaskFromFile_cases now reg task with hcase | ⟨t, hjt, hle, hcase⟩ |
        ⟨t, hjt, hgt, hcase⟩ | ⟨hjt, hcase⟩
      · rw [hcase]
        exact ⟨hinv, hwf, noExecFor_nil tid⟩
      · rw [hcase]
        refine ⟨hinv, hwf, ?_⟩
        intro t2 ht2 hid
        rw [List.mem_singleton] at ht2
        cases ht2
        have hD := hdisc' hid
        rw [hjt] at hD
        have : t = D := Option.some.inj hD
        omega
      · rw [hcase]
        refine ⟨?_, ?_, noExecFor_nil tid⟩
        · intro e2 he2 he2tid j hj
          rcases mem_setJob he2 with h | h
          · rw [h] at he2tid hj
            have hD := hdisc' (by simpa using he2tid)
            rw [hjt] at hD
            have ht2 : t = D := Option.some.inj hD
            have : j = ⟨t, task⟩ := (Option.some.inj hj).symm
            rw [this]
            exact ht2
          · exact hinv e2 h he2tid j hj
        · intro e2 he2 j hj
          rcases mem_setJob he2 with h | h
          · rw [h] at hj ⊢
            have : j = ⟨t, task⟩ := (Option.some.inj hj).symm
            rw [this]
          · exact hwf e2 h j hj
      · rw [hcase]
        refine ⟨?_, ?_, noExecFor_nil tid⟩
        · intro e2 he2 he2tid j hj
          rcases mem_setJob he2 with h | h
          · rw [h] at hj
            exact absurd hj (by simp)
          · exact hinv e2 h he2tid j hj
        · intro e2 he2 j hj
          rcases mem_setJob he2 with h | h
          · rw [h] at hj
            exact absurd hj (by simp)
          · exact hwf e2 h j hj
  | fileDeleted tt tid2 =>
      have hstep : stepEvent reg (.fileDeleted tt tid2) = (watcherOnDeleted reg tid2, []) := rfl
      rw [hstep]
      refine ⟨?_, ?_, noExecFor_nil tid⟩
      · intro e2 he2 he2tid j hj
        exact hinv e2 (mem_watcherOnDeleted he2) he2tid j hj
      · intro e2 he2 j hj
        exact hwf e2 (mem_watcherOnDeleted he2) j hj
  | fire now k =>
      rcases stepEvent_fire_cases reg now k with hcase | ⟨j, hj, hdue, hcase⟩
      · rw [hcase]
        exact ⟨hinv, hwf, noExecFor_nil tid⟩
      · rw [hcase]
        refine ⟨?_, ?_, ?_⟩
        · intro e2 he2 he2tid j2 hj2
          exact hinv e2 (mem_delKey he2) he2tid j2 hj2
        · intro e2 he2 j2 hj2
          exact hwf e2 (mem_delKey he2) j2 hj2
        · intro t2 ht2 hid
          rw [List.mem_singleton] at ht2
          cases ht2
          obtain ⟨e0, he0, he0k, he0j⟩ := getJob_mem reg k _ hj
          have hkid := hwf e0 he0 j (by rw [he0j])
          rw [he0k] at hkid
          rw [hid] at hkid
          have hD := hinv e0 he0 (by rw [he0k, ← hkid]) j (by rw [he0j])
          have htime' : now ≤ tdel := htime
          omega

theorem phase2_step (tid : String) (reg : Registry) (e : TEvent)
    (hnodisc : ∀ now task, e = .discover now task → getField task "taskId" ≠ .vstr tid)
    (habs : hasKey reg (.vstr tid) = false) (hwf : wfReg reg) :
    hasKey (stepEvent reg e).1 (.vstr tid) = false ∧ wfReg (stepEvent reg e).1 ∧
      noExecFor tid (stepEvent reg e).2 := by
  cases e with
  | discover now task =>
      have hstep : stepEvent reg (.discover now task) = scheduleTaskFromFile now reg task := rfl
      rw [hstep]
      have hid := hnodisc now task rfl
      have hkeq : keyEq (getField task "taskId") (.vstr tid) = false := by
        cases hk : keyEq (getField task "taskId") (.vstr tid) with
        | false => rfl
        | true => exact absurd (keyEq_eq hk) hid
      rcases scheduleTaskFromFile_cases now reg task with hcase | ⟨t, hjt, hle, hcase⟩ |
        ⟨t, hjt, hgt, hcase⟩ | ⟨hjt, hcase⟩
      · rw [hcase]
        exact ⟨habs, hwf, noExecFor_nil tid⟩
      · rw [hcase]
        refine ⟨habs, hwf, ?_⟩
        intro t2 ht2 hid2
        rw [List.mem_singleton] at ht2
        cases ht2
        exact hid hid2
      · rw [hcase]
        refine ⟨?_, ?_, noExecFor_nil tid⟩
        · rw [hasKey_setJob, habs, hkeq]
          rfl
        · intro e2 he2 j hj
          rcases mem_setJob he2 with h | h
          · rw [h] at hj ⊢
            have : j = ⟨t, task⟩ := (Option.some.inj hj).symm
            rw [this]
          · exact hwf e2 h j hj
      · rw [hcase]
        refine ⟨?_, ?_, noExecFor_nil tid⟩
        · rw [hasKey_setJob, habs, hkeq]
          rfl
        · intro e2 he2 j hj
          rcases mem_setJob he2 with h | h
          · rw [h] at hj
            exact absurd hj (by simp)
          · exact hwf e2 h j hj
  | fileDeleted tt tid2 =>
      have hstep : stepEvent reg (.fileDeleted tt tid2) = (watcherOnDeleted reg tid2, []) := rfl
      rw [hstep]
      refine ⟨?_, ?_, noExecFor_nil tid⟩
      · unfold watcherOnDeleted
        split
        · exact hasKey_delKey_mono reg (.vstr tid2) (.vstr tid) habs
        · exact habs
      · intro e2 he2 j hj
        exact hwf e2 (mem_watcherOnDeleted he2) j hj
  | fire now k =>
      rcases stepEvent_fire_cases reg now k with hcase | ⟨j, hj, hdue, hcase⟩
      · rw [hcase]
        exact ⟨habs, hwf, noExecFor_nil tid⟩
      · rw [hcase]
        refine ⟨hasKey_delKey_mono reg k (.vstr tid) habs, ?_, ?_⟩
        · intro e2 he2 j2 hj2
          exact hwf e2 (mem_delKey he2) j2 hj2
        · intro t2 ht2 hid
          rw [List.mem_singleton] at ht2
          cases ht2
          obtain ⟨e0, he0, he0k, he0j⟩ := getJob_mem reg k _ hj
          have hkid := hwf e0 he0 j (by rw [he0j])
          rw [he0k] at hkid
          rw [hid] at hkid
          have := hasKey_of_mem_vstr he0 (by rw [he0k, ← hkid])
          rw [habs] at this
          exact Bool.noConfusion this

theorem runTrace_cons (reg : Registry) (e : TEvent) (rest : List TEvent) :
    runTrace reg (e :: rest) =
      ((runTrace (stepEvent reg e).1 rest).1,
        (stepEvent reg e).2 ++ (runTrace (stepEvent reg e).1 rest).2) := rfl

theorem runTrace_append (l1 l2 : List TEvent) : ∀ reg : Registry,
    runTrace reg (l1 ++ l2) =
      ((runTrace (runTrace reg l1).1 l2).1,
        (runTrace reg l1).2 ++ (runTrace (runTrace reg l1).1 l2).2) := by
  induction l1 with
  | nil => intro reg; simp [runTrace]
  | cons e rest ih =>
      intro reg
      rw [show (e :: rest) ++ l2 = e :: (rest ++ l2) from rfl]
      rw [runTrace_cons, ih, runTrace_cons reg e rest]
      simp [List.append_assoc]

theorem phase1_run (tid : String) (D tdel : Int) (evs : List TEvent) : ∀ reg : Registry,
    (∀ e ∈ evs, timeOf e ≤ tdel) → tdel < D →
    (∀ now task, TEvent.discover now task ∈ evs → getField task "taskId" = .vstr tid →
      jsDateOf (getField task "scheduledLocalTime") = some D) →
    tidJobsOk tid D reg → wfReg reg →
    tidJobsOk tid D (runTrace reg evs).1 ∧ wfReg (runTrace reg evs).1 ∧
      noExecFor tid (runTrace reg evs).2 := by
  induction evs with
  | nil => intro reg _ _ _ hinv hwf; exact ⟨hinv, hwf, noExecFor_nil tid⟩
  | cons e rest ih =>
      intro reg htime htdel hdisc hinv hwf
      obtain ⟨h1, h2, h3⟩ := phase1_step tid D tdel reg e (htime e (by simp)) htdel
        (fun now task he hid => hdisc now task (by rw [← he]; simp) hid) hinv hwf
      obtain ⟨h4, h5, h6⟩ := ih (stepEvent reg e).1
        (fun e2 he2 => htime e2 (by simp [he2])) htdel
        (fun now task he2 hid => hdisc now task (by simp [he2]) hid) h1 h2
      exact ⟨h4, h5, noExecFor_append h3 h6⟩

theorem phase2_run (tid : String) (evs : List TEvent) : ∀ reg : Registry,
    (∀ now task, TEvent.discover now task ∈ evs → getField task "taskId" ≠ .vstr tid) →
    hasKey reg (.vstr tid) = false → wfReg reg →
    hasKey (runTrace reg evs).1 (.vstr tid) = false ∧ wfReg (runTrace reg evs).1 ∧
      noExecFor tid (runTrace reg evs).2 := by
  induction evs with
  | nil => intro reg _ habs hwf; exact ⟨habs, hwf, noExecFor_nil tid⟩
  | cons e rest ih =>
      intro reg hnodisc habs hwf
      obtain ⟨h1, h2, h3⟩ := phase2_step tid reg e
        (fun now task he => hnodisc now task (by rw [← he]; simp)) habs hwf
      obtain ⟨h4, h5, h6⟩ := ih (stepEvent reg e).1
        (fun now task he2 => hnodisc now task (by simp [he2])) h1 h2
      exact ⟨h4, h5, noExecFor_append h3 h6⟩

/-- C5: if the record's file disappears strictly before its due instant and the
file is never recreated, the watcher cancels and removes the pending entry, and
no execution of that taskId ever starts anywhere in the trace. -/
theorem cancellation_before_due (tid : String) (D tdel : Int) (pre post : List TEvent)
    (hpre_t : ∀ e ∈ pre, timeOf e ≤ tdel)
    (htdel : tdel < D)
    (hpre_d : ∀ now task, TEvent.discover now task ∈ pre →
      getField task "taskId" = .vstr tid →
      jsDateOf (getField task "scheduledLocalTime") = some D)
    (hpost_d : ∀ now task, TEvent.discover now task ∈ post →
      getField task "taskId" ≠ .vstr tid) :
    noExecFor tid (runTrace ([] : Registry) (pre ++ .fileDeleted tdel tid :: post)).2 ∧
    hasKey (runTrace ([] : Registry) (pre ++ [.fileDeleted tdel tid])).1 (.vstr tid) = false := by
  obtain ⟨hinv1, hwf1, hne1⟩ := phase1_run tid D tdel pre ([] : Registry)
    hpre_t htdel hpre_d (by intro e he; simp at he) (by intro e he; simp at he)
  have hnod1 : keysNodupR (runTrace ([] : Registry) pre).1 :=
    runTrace_nodup pre [] (by simp [keysNodupR])
  have hdel : stepEvent (runTrace ([] : Registry) pre).1 (.fileDeleted tdel tid) =
      (watcherOnDeleted (runTrace ([] : Registry) pre).1 tid, []) := rfl
  have habs2 : hasKey (watcherOnDeleted (runTrace ([] : Registry) pre).1 tid) (.vstr tid) = false :=
    hasKey_watcherOnDeleted_self _ tid hnod1
  have hwf2 : wfReg (watcherOnDeleted (runTrace ([] : Registry) pre).1 tid) := by
    intro e2 he2 j hj
    exact hwf1 e2 (mem_watcherOnDeleted he2) j hj
  obtain ⟨h4, h5, h6⟩ := phase2_run tid post _ hpost_d habs2 hwf2
  constructor
  · rw [runTrace_append]
    refine noExecFor_append hne1 ?_
    show noExecFor tid (runTrace _ (.fileDeleted tdel tid :: post)).2
    unfold runTrace
    rw [hdel]
    exact noExecFor_append (noExecFor_nil tid) h6
  · rw [runTrace_append]
    show hasKey (runTrace _ [.fileDeleted tdel tid]).1 (.vstr tid) = false
    unfold runTrace
    rw [hdel]
    exact habs2

-- ─────────────────────────── witnesses and counterexamples ───────────────────────────

theorem renewNextIso_advances_witness :
    (validDate 2026 1 1 = true ∧ (0 : Nat) < 60 ∧
      -30610224000000 ≤ epochMsOf 2026 1 1 10 0 0 false 8 0 + (60 : Nat) * 1000 +
        offsetMs false 8 0 ∧
      epochMsOf 2026 1 1 10 0 0 false 8 0 + (60 : Nat) * 1000 + offsetMs false 8 0 <
        253402300800000) ∧
    (jsParseDate (renewNextIso (fmtTs 2026 1 1 10 0 0 false 8 0) ((60 : Nat) : Int))
        = some (epochMsOf 2026 1 1 10 0 0 false 8 0 + ((60 : Nat) : Int) * 1000)
      ∧ offsetSuffix (renewNextIso (fmtTs 2026 1 1 10 0 0 false 8 0) ((60 : Nat) : Int))
        = offsetSuffix (fmtTs 2026 1 1 10 0 0 false 8 0)) ∧
    fmtTs 2026 1 1 10 0 0 false 8 0 = "2026-01-01T10:00:00+08:00" ∧
    renewNextIso "2026-01-01T10:00:00+08:00" 60 = "2026-01-01T10:01:00+08:00" := by
  refine ⟨⟨by decide, by decide, by decide, by decide⟩, ?_, by decide, by decide⟩
  exact renewNextIso_advances 2026 1 1 10 0 0 8 0 60 false (by decide) (by decide) (by decide)
    (by decide) (by decide) (by decide) (by decide) (by decide) (by decide) (by decide)

def c4task : JVal :=
  .vobj [("taskId", .vstr "t4"), ("scheduledLocalTime", .vstr "2026-01-01T10:00:00+08:00"),
    ("tool_call", .vobj [("tool_name", .vstr "Echo"), ("arguments", .vobj [("msg", .vstr "hi")])])]

theorem expired_executes_immediately_witness :
    (truthy (getField c4task "scheduledLocalTime") = true ∧
      truthy (getField c4task "taskId") = true ∧
      hasKey ([] : Registry) (getField c4task "taskId") = false ∧
      jsDateOf (getField c4task "scheduledLocalTime") = some 1767232800000 ∧
      (1767232800000 : Int) ≤ 1767232800000) ∧
    scheduleTaskFromFile 1767232800000 [] c4task = ([], [.execute c4task]) := by
  refine ⟨⟨by decide, by decide, by decide, by decide, by decide⟩, ?_⟩
  exact expired_executes_immediately 1767232800000 [] c4task 1767232800000
    (by decide) (by decide) (by decide) (by decide) (by decide)

def c5task : JVal :=
  .vobj [("taskId", .vstr "t5"), ("scheduledLocalTime", .vstr "2026-01-01T10:00:00+08:00"),
    ("tool_call", .vobj [("tool_name", .vstr "Echo"), ("arguments", .vobj [("msg", .vstr "hi")])])]

theorem cancellation_before_due_witness :
    noExecFor "t5"
      (runTrace ([] : Registry)
        ([TEvent.discover 0 c5task] ++ TEvent.fileDeleted 5 "t5" :: [])).2 ∧
    hasKey (runTrace ([] : Registry)
      ([TEvent.discover 0 c5task] ++ [TEvent.fileDeleted 5 "t5"])).1 (.vstr "t5") = false := by
  apply cancellation_before_due "t5" 1767232800000 5 [TEvent.discover 0 c5task] []
  · intro e he
    rw [List.mem_singleton.mp he]
    decide
  · decide
  · intro now task h hid
    rw [List.mem_singleton] at h
    injection h with h1 h2
    rw [h2]
    decide
  · intro now task h
    simp at h

def c6btask : JVal :=
  .vobj [("taskId", .vstr "t6b"), ("scheduledLocalTime", .vstr "2026-01-01T10:00:00+08:00"),
    ("interval", .vnum 60),
    ("tool_call", .vobj [("tool_name", .vstr "Echo"), ("arguments", .vobj [("msg", .vstr "hi")])])]

theorem args_passed_verbatim_witness :
    ((truthy (getField c6btask "tool_call") = true ∧
      truthy (getField (getField c6btask "tool_call") "tool_name") = true ∧
      truthy (getField (getField c6btask "tool_call") "arguments") = true) ∧
     ¬(jstreq (getField (getField c6btask "tool_call") "tool_name") "AgentAssistant" = true ∧
      truthy (getField (getField (getField c6btask "tool_call") "arguments") "prompt") = true)) ∧
    (executeTimedContact c6btask (.ok .vnull) true 28800000 []).2.invocation =
      some (getField (getField c6btask "tool_call") "tool_name",
        getField (getField c6btask "tool_call") "arguments") := by
  refine ⟨⟨⟨by decide, by decide, by decide⟩, by decide⟩, ?_⟩
  exact args_passed_verbatim c6btask (.ok .vnull) true 28800000 []
    ⟨by decide, by decide, by decide⟩ (by decide)

theorem c6_counterexample :
    ((executeTimedContact c6task (.ok .vnull) true 28800000 []).2.invocation.map
      (fun p => jsToString (getField p.2 "prompt"))) ≠ some "hi" ∧
    ((executeTimedContact c6task (.ok .vnull) true 28800000 []).2.invocation.map
      (fun p => jsToString (getField p.2 "prompt"))) =
        some "[预定通讯: 2026-01-01 10:00:00] hi" := by
  exact ⟨by decide, by decide⟩

theorem c7_counterexample :
    truthy (getField c7task "tool_call") = false ∧
    hasKey (scheduleTaskFromFile 0 [] c7task).1 (.vstr "t7") = true := by
  exact ⟨by decide, by decide⟩

theorem invalid_record_rejected_at_execution_witness :
    (¬(truthy (getField c7task "tool_call") = true ∧
      truthy (getField (getField c7task "tool_call") "tool_name") = true ∧
      truthy (getField (getField c7task "tool_call") "arguments") = true)) ∧
    ((executeTimedContact c7task (.ok .vnull) true 28800000 []).2.invocation = none ∧
     (executeTimedContact c7task (.ok .vnull) true 28800000 []).2.reports =
       [⟨"error", "task_scheduler_executor_error"⟩]) := by
  refine ⟨by decide, ?_⟩
  exact invalid_record_rejected_at_execution c7task (.ok .vnull) true 28800000 [] (by decide)

theorem c8_counterexample :
    jsDateOf (getField c8task "scheduledLocalTime") = none ∧
    hasKey (scheduleTaskFromFile 0 [] c8task).1 (.vstr "t8") = true := by
  exact ⟨by decide, by decide⟩

theorem unparseable_registers_null_entry_witness :
    (truthy (getField c8task "scheduledLocalTime") = true ∧
      truthy (getField c8task "taskId") = true ∧
      hasKey ([] : Registry) (getField c8task "taskId") = false ∧
      jsDateOf (getField c8task "scheduledLocalTime") = none) ∧
    (scheduleTaskFromFile 0 [] c8task = (setJob [] (.vstr "t8") none, []) ∧
      hasKey (setJob ([] : Registry) (.vstr "t8") none) (.vstr "t8") = true) := by
  refine ⟨⟨by decide, by decide, by decide, by decide⟩, ?_⟩
  exact unparseable_registers_null_entry 0 [] c8task "t8"
    (by decide) (by decide) rfl (by decide) (by decide)

def c9task : JVal :=
  .vobj [("taskId", .vstr "t9"), ("scheduledLocalTime", .vstr "2026-01-01T10:00:00+08:00"),
    ("interval", .vnum 60),
    ("tool_call", .vobj [("tool_name", .vstr "Echo"), ("arguments", .vobj [("msg", .vstr "hi")])])]

theorem renewal_rewrites_only_time_witness :
    ((truthy (getField c9task "interval") = true ∧
      isNumber (getField c9task "interval") = true ∧ 0 < numVal (getField c9task "interval")) ∧
     getField c9task "scheduledLocalTime" = .vstr "2026-01-01T10:00:00+08:00") ∧
    (∃ t2, (executeTimedContact c9task (.ok .vnull) true 28800000 []).2.fileOp = .rewrite t2 ∧
      getField t2 "taskId" = getField c9task "taskId" ∧
      getField t2 "interval" = getField c9task "interval" ∧
      getField t2 "tool_call" = getField c9task "tool_call" ∧
      getField t2 "scheduledLocalTime" =
        .vstr (renewNextIso "2026-01-01T10:00:00+08:00" (numVal (getField c9task "interval")))) := by
  refine ⟨⟨⟨by decide, by decide, by decide⟩, rfl⟩, ?_⟩
  exact renewal_rewrites_only_time c9task (.ok .vnull) 28800000 [] "2026-01-01T10:00:00+08:00"
    ⟨by decide, by decide, by decide⟩ rfl (by decide)

def c10task : JVal :=
  .vobj [("taskId", .vstr "ta"), ("scheduledLocalTime", .vstr "2026-01-01T10:00:00+08:00"),
    ("interval", .vstr "60"),
    ("tool_call", .vobj [("tool_name", .vstr "Echo"), ("arguments", .vobj [("msg", .vstr "hi")])])]

theorem oneshot_cleanup_witness :
    (¬(truthy (getField c10task "interval") = true ∧
      isNumber (getField c10task "interval") = true ∧ 0 < numVal (getField c10task "interval"))) ∧
    ((executeTimedContact c10task (.ok .vnull) true 28800000 []).1 = [] ∧
      (executeTimedContact c10task (.ok .vnull) true 28800000 []).2.fileOp = .deleteAttempt) := by
  refine ⟨by decide, ?_⟩
  exact oneshot_cleanup c10task (.ok .vnull) true 28800000 [] (by decide)
